import Mathlib

/-!
# Verification of AVDNet's early-stopping, trial-selection and metrics logic

Shallow embedding of the algorithmic core of the AVDNet repository:

* `EarlyStopping` and `EarlyStopping.call` embed the class `EarlyStopping`
  and its `__call__` method from `src/optimization_old.py` (lines 14-31).
* `BestState` / `save_best_model_callback` embed the global best-model
  tracking of `save_best_model_callback` and the `__main__` block of
  `src/optimization_old.py` (lines 295-312).
* `calculate_metrics`, `calculate_metrics_4` and `calculate_eer` embed the
  metric functions of `src/data_methods.py` (lines 387-430), including the
  relevant semantics of the scikit-learn calls they delegate to
  (`accuracy_score`, `recall_score`, `f1_score`, `precision_score`,
  `roc_curve`) and of `np.nanargmin`.

Python floats are modelled as `ℚ` (the code performs only comparisons,
subtraction, counting and division on them); `NaN` outcomes are modelled
with `Option`, raised exceptions with `Except`.
-/

namespace AVDNet


/-! ## Early stopping (src/optimization_old.py, class EarlyStopping) -/

/-- State of the `EarlyStopping` object: constructor arguments `patience`
and `delta` plus the mutable fields `best_loss` (initially `None`),
`counter` (initially `0`) and `early_stop` (initially `False`). -/
structure EarlyStopping where
  patience : ℕ
  delta : ℚ
  best_loss : Option ℚ
  counter : ℕ
  early_stop : Bool
deriving DecidableEq, Repr

/-- `EarlyStopping.__init__(patience, delta)`. -/
def EarlyStopping.init (patience : ℕ) (delta : ℚ) : EarlyStopping :=
  { patience := patience, delta := delta, best_loss := none,
    counter := 0, early_stop := false }

/-- `EarlyStopping.__call__(val_loss)`: if `best_loss is None` record the
loss; elif `val_loss > best_loss - delta` increment the counter and raise
`early_stop` once `counter >= patience`; else record the new best loss and
reset the counter. -/
def EarlyStopping.call (s : EarlyStopping) (val_loss : ℚ) : EarlyStopping :=
  match s.best_loss with
  | none => { s with best_loss := some val_loss }
  | some best =>
    if val_loss > best - s.delta then
      let c := s.counter + 1
      { s with counter := c,
               early_stop := if c ≥ s.patience then true else s.early_stop }
    else
      { s with best_loss := some val_loss, counter := 0 }

/-- Feed a sequence of per-epoch validation losses to the monitor. -/
def runCalls (s : EarlyStopping) (losses : List ℚ) : EarlyStopping :=
  losses.foldl EarlyStopping.call s

/-! ## Trial selection (src/optimization_old.py, save_best_model_callback) -/

/-- The per-trial data the callback reads from `trial.user_attrs`:
`best_val_loss` and `best_model_path` (paths abstracted as naturals). -/
structure TrialOutcome where
  best_val_loss : ℚ
  best_model_path : ℕ
deriving DecidableEq, Repr

/-- The globals `best_validation_loss` / `best_model_path` mutated by
`save_best_model_callback`. -/
structure BestState where
  best_validation_loss : ℚ
  best_model_path : Option ℕ
deriving DecidableEq, Repr

/-- Initial global state from `__main__`: `best_model_path = None`,
`best_validation_loss = 1000000`. -/
def initBest : BestState :=
  { best_validation_loss := 1000000, best_model_path := none }

/-- `save_best_model_callback(study, trial)`: replace the global best
record iff this trial's loss is strictly lower. -/
def save_best_model_callback (st : BestState) (t : TrialOutcome) : BestState :=
  if t.best_val_loss < st.best_validation_loss then
    { best_validation_loss := t.best_val_loss,
      best_model_path := some t.best_model_path }
  else st

/-- The callback applied over a whole study, trial by trial. -/
def runStudy (ts : List TrialOutcome) : BestState :=
  ts.foldl save_best_model_callback initBest

/-- The C10 invariant, as a single-state property. -/
def GoodES (s : EarlyStopping) : Prop :=
  1 ≤ s.patience ∧ (s.early_stop = false → s.counter < s.patience)

/-! ## Metrics engine (src/data_methods.py, lines 387-430)

The metric functions delegate to scikit-learn.  The embedding reproduces
the behaviour of those library calls on binary label lists:

* `accuracy_score(y_true, y_pred)` is the mean of the elementwise match
  indicator; on empty inputs `np.average` yields `NaN` (modelled `none`)
  instead of raising.
* `recall_score` / `precision_score` / `f1_score` with the default
  `zero_division="warn"` return `0.0` when their denominator is zero.
* all of them raise `ValueError` (via `check_consistent_length`) when the
  two sequences have different lengths.
-/

/-- Errors raised inside the metric functions: length mismatch
(`check_consistent_length`), empty input to `roc_curve`
(`_check_pos_label_consistency` sees an empty class set), and the
all-NaN `np.nanargmin` failure when one class is absent. -/
inductive MetricError
  | lengthMismatch
  | emptyInput
  | degenerate
deriving DecidableEq, Repr

/-- Count the elements of a list satisfying a decidable predicate. -/
def countIf {α : Type} (p : α → Prop) [DecidablePred p] : List α → ℕ
  | [] => 0
  | x :: xs => countIf p xs + if p x then 1 else 0

/-- `(y_pred > 0.5).astype(int)`: a score is predicted positive iff it is
strictly greater than `0.5`. -/
def binarize (y_pred : List ℚ) : List Bool :=
  y_pred.map (fun s => if (1 : ℚ) / 2 < s then true else false)

/-- True positives of the binarized predictions. -/
def truePos (y_true yl : List Bool) : ℕ :=
  countIf (fun q => q.1 = true ∧ q.2 = true) (y_true.zip yl)

/-- True negatives of the binarized predictions. -/
def trueNeg (y_true yl : List Bool) : ℕ :=
  countIf (fun q => q.1 = false ∧ q.2 = false) (y_true.zip yl)

/-- False positives of the binarized predictions. -/
def falsePos (y_true yl : List Bool) : ℕ :=
  countIf (fun q => q.1 = false ∧ q.2 = true) (y_true.zip yl)

/-- False negatives of the binarized predictions. -/
def falseNeg (y_true yl : List Bool) : ℕ :=
  countIf (fun q => q.1 = true ∧ q.2 = false) (y_true.zip yl)

/-- `sklearn.metrics.accuracy_score`: the mean of the match indicator
`y_true == y_pred`; `NaN` (here `none`) on empty input. -/
def accuracy_score (y_true yl : List Bool) : Option ℚ :=
  if y_true.length = 0 then none
  else some ((countIf (fun q => q.1 = q.2) (y_true.zip yl) : ℚ) / y_true.length)

/-- `sklearn.metrics.recall_score` with `zero_division="warn"`:
`TP / (TP + FN)`, `0.0` when there are no positive ground-truth labels. -/
def recall_score (y_true yl : List Bool) : ℚ :=
  if truePos y_true yl + falseNeg y_true yl = 0 then 0
  else (truePos y_true yl : ℚ) / (truePos y_true yl + falseNeg y_true yl)

/-- `sklearn.metrics.precision_score` with `zero_division="warn"`:
`TP / (TP + FP)`, `0.0` when nothing is predicted positive. -/
def precision_score (y_true yl : List Bool) : ℚ :=
  if truePos y_true yl + falsePos y_true yl = 0 then 0
  else (truePos y_true yl : ℚ) / (truePos y_true yl + falsePos y_true yl)

/-- `sklearn.metrics.f1_score` with `zero_division="warn"`: harmonic mean
of precision and recall, `0.0` when both are zero. -/
def f1_score (y_true yl : List Bool) : ℚ :=
  if precision_score y_true yl + recall_score y_true yl = 0 then 0
  else 2 * precision_score y_true yl * recall_score y_true yl /
    (precision_score y_true yl + recall_score y_true yl)

/-- `calculate_metrics(y_true, y_pred)` (src/data_methods.py:387):
binarize at `0.5`, then return `(accuracy, recall, f1)`. -/
def calculate_metrics (y_true : List Bool) (y_pred : List ℚ) :
    Except MetricError (Option ℚ × ℚ × ℚ) :=
  if y_true.length ≠ y_pred.length then .error .lengthMismatch
  else
    .ok (accuracy_score y_true (binarize y_pred),
         recall_score y_true (binarize y_pred),
         f1_score y_true (binarize y_pred))

/-- `calculate_metrics_4(y_true, y_pred)` (src/data_methods.py:396):
binarize at `0.5`, then return `(accuracy, recall, f1, precision)`. -/
def calculate_metrics_4 (y_true : List Bool) (y_pred : List ℚ) :
    Except MetricError (Option ℚ × ℚ × ℚ × ℚ) :=
  if y_true.length ≠ y_pred.length then .error .lengthMismatch
  else
    .ok (accuracy_score y_true (binarize y_pred),
         recall_score y_true (binarize y_pred),
         f1_score y_true (binarize y_pred),
         precision_score y_true (binarize y_pred))

/-! ## Equal error rate (src/data_methods.py:418, `calculate_eer`)

`calculate_eer` calls `sklearn.metrics.roc_curve(y_true, y_pred)` (with
its default `drop_intermediate=True`), forms `fnr = 1 - tpr`, picks
`np.nanargmin(np.abs(fnr - fpr))` and returns the mean of `fpr` and `fnr`
there.  `roc_curve` evaluates the cumulative true/false positive counts
at every distinct score value in decreasing order, removes interior
points whose `fps` and `tps` second differences both vanish, prepends the
origin `(0, 0)`, and divides by the class totals; when a class total is
zero the corresponding rate array is all-`NaN` (with a warning) and
`np.nanargmin` then raises `ValueError`; `roc_curve` raises on empty or
length-mismatched inputs. -/

/-- Insert a value into a strictly-descending list, keeping it strictly
descending (a duplicate is dropped). -/
def insertDesc (a : ℚ) : List ℚ → List ℚ
  | [] => [a]
  | b :: bs =>
    if a > b then a :: b :: bs
    else if a = b then b :: bs
    else b :: insertDesc a bs

/-- The distinct values of a list in strictly decreasing order: the
thresholds at which `roc_curve` samples the curve. -/
def distinctDesc (l : List ℚ) : List ℚ := l.foldr insertDesc []

/-- Negatives scored at or above threshold `t` (the `fps` cumulative count
of sklearn's `_binary_clf_curve` at that threshold). -/
def fpsAt (labels : List Bool) (scores : List ℚ) (t : ℚ) : ℕ :=
  countIf (fun q => q.1 = false ∧ t ≤ q.2) (labels.zip scores)

/-- Positives scored at or above threshold `t` (the `tps` cumulative count
of sklearn's `_binary_clf_curve` at that threshold). -/
def tpsAt (labels : List Bool) (scores : List ℚ) (t : ℚ) : ℕ :=
  countIf (fun q => q.1 = true ∧ t ≤ q.2) (labels.zip scores)

/-- The `(fps, tps)` pairs of `_binary_clf_curve`, one per distinct
threshold, in decreasing-threshold order. -/
def clfPoints (labels : List Bool) (scores : List ℚ) : List (ℕ × ℕ) :=
  (distinctDesc scores).map (fun t => (fpsAt labels scores t, tpsAt labels scores t))

/-- `drop_intermediate` keeps index `i` iff it is an endpoint or the
second difference of `fps` or of `tps` at `i` is nonzero. -/
def keepPoint (pts : List (ℕ × ℕ)) (i : ℕ) : Bool :=
  i == 0 || i == pts.length - 1 ||
  ! ((pts.getD (i - 1) (0, 0)).1 + (pts.getD (i + 1) (0, 0)).1 ==
       2 * (pts.getD i (0, 0)).1 &&
     (pts.getD (i - 1) (0, 0)).2 + (pts.getD (i + 1) (0, 0)).2 ==
       2 * (pts.getD i (0, 0)).2)

/-- `roc_curve`'s collinear-point removal, applied only when there are
more than two points. -/
def dropIntermediate (pts : List (ℕ × ℕ)) : List (ℕ × ℕ) :=
  if pts.length ≤ 2 then pts
  else ((List.range pts.length).filter (keepPoint pts)).map
    (fun i => pts.getD i (0, 0))

/-- The integer curve of `roc_curve` after `drop_intermediate`, with the
prepended origin `(0, 0)` (the extra `inf` threshold). -/
def rocCurvePoints (labels : List Bool) (scores : List ℚ) : List (ℕ × ℕ) :=
  (0, 0) :: dropIntermediate (clfPoints labels scores)

/-- Minimum of a list of rationals (`0` for the empty list, unused). -/
def listMinD : List ℚ → ℚ
  | [] => 0
  | [x] => x
  | x :: y :: xs => if x ≤ listMinD (y :: xs) then x else listMinD (y :: xs)

/-- Index of the first occurrence of `m` in a list. -/
def findIdxMin (m : ℚ) : List ℚ → ℕ
  | [] => 0
  | x :: xs => if x = m then 0 else findIdxMin m xs + 1

/-- `np.nanargmin` on a NaN-free array: the first index attaining the
minimum. -/
def firstArgmin (l : List ℚ) : ℕ := findIdxMin (listMinD l) l

/-- `np.abs`, the absolute value. -/
def absQ (x : ℚ) : ℚ := if 0 ≤ x then x else -x

/-- `np.abs(fnr - fpr)` at each curve point, with `fpr = fps / N` and
`fnr = 1 - tps / P`. -/
def gapsList (P N : ℕ) (pts : List (ℕ × ℕ)) : List ℚ :=
  pts.map (fun q => absQ ((1 - (q.2 : ℚ) / P) - (q.1 : ℚ) / N))

/-- The value returned on the non-error path of `calculate_eer`:
`(fpr + fnr) / 2` at the first curve index minimizing `|fnr - fpr|`. -/
def eerValue (labels : List Bool) (scores : List ℚ) : ℚ :=
  let P := countIf (fun b => b = true) labels
  let N := countIf (fun b => b = false) labels
  let pts := rocCurvePoints labels scores
  let q := pts.getD (firstArgmin (gapsList P N pts)) (0, 0)
  ((q.1 : ℚ) / N + (1 - (q.2 : ℚ) / P)) / 2

/-- `calculate_eer(y_true, y_pred)` (src/data_methods.py:418).  The error
cases are the `ValueError`s raised by the underlying library calls:
mismatched lengths (`check_consistent_length`), empty input
(`_check_pos_label_consistency`), and a single-class label set (the
all-NaN `np.nanargmin`). -/
def calculate_eer (labels : List Bool) (scores : List ℚ) :
    Except MetricError ℚ :=
  if labels.length ≠ scores.length then .error .lengthMismatch
  else if labels = [] then .error .emptyInput
  else if countIf (fun b => b = true) labels = 0 ∨
      countIf (fun b => b = false) labels = 0 then .error .degenerate
  else .ok (eerValue labels scores)

/-- The EER value as the specification words it: sweep *every* distinct
threshold of the sorted scores (no collinear-point dropping, no extra
origin point), select the first operating point minimizing `|FNR − FPR|`,
return the mean of FPR and FNR there.  Kept side by side with `eerValue`
to compare the code against the specification's description. -/
def eerValueSpecSweep (labels : List Bool) (scores : List ℚ) : ℚ :=
  let P := countIf (fun b => b = true) labels
  let N := countIf (fun b => b = false) labels
  let pts := clfPoints labels scores
  let q := pts.getD (firstArgmin (gapsList P N pts)) (0, 0)
  ((q.1 : ℚ) / N + (1 - (q.2 : ℚ) / P)) / 2

/-- The specification's `equal_error_rate`, with the same error cases as
the code but the full-sweep operating-point selection. -/
def equal_error_rate_spec (labels : List Bool) (scores : List ℚ) :
    Except MetricError ℚ :=
  if labels.length ≠ scores.length then .error .lengthMismatch
  else if labels = [] then .error .emptyInput
  else if countIf (fun b => b = true) labels = 0 ∨
      countIf (fun b => b = false) labels = 0 then .error .degenerate
  else .ok (eerValueSpecSweep labels scores)

/-! ### C2: which operating point does the code select? -/

/-- Total positives (`tps[-1]`, the divisor of `tpr`). -/
def rocP (labels : List Bool) : ℕ := countIf (fun b => b = true) labels

/-- Total negatives (`fps[-1]`, the divisor of `fpr`). -/
def rocN (labels : List Bool) : ℕ := countIf (fun b => b = false) labels

/-- The `|fnr - fpr|` array the code minimizes over. -/
def rocGaps (labels : List Bool) (scores : List ℚ) : List ℚ :=
  gapsList (rocP labels) (rocN labels) (rocCurvePoints labels scores)

/-- The operating-point index `calculate_eer` selects. -/
def eerIndex (labels : List Bool) (scores : List ℚ) : ℕ :=
  firstArgmin (rocGaps labels scores)

/-! ## Theorems -/

/-! ### Basic invariants of the monitor -/

/-- `call` never erases a recorded best loss. -/
theorem call_best_loss_isSome (s : EarlyStopping) (v : ℚ) :
    (s.call v).best_loss.isSome := by
  unfold EarlyStopping.call
  cases h : s.best_loss with
  | none => simp
  | some b =>
    by_cases hc : v > b - s.delta <;> simp [hc]

/-- `call` does not change `patience`. -/
theorem call_patience (s : EarlyStopping) (v : ℚ) :
    (s.call v).patience = s.patience := by
  unfold EarlyStopping.call
  cases h : s.best_loss with
  | none => rfl
  | some b =>
    by_cases hc : v > b - s.delta <;> simp [hc]

/-- After a nonempty run, a best loss is recorded. -/
theorem runCalls_best_loss_isSome (s : EarlyStopping) (l : ℚ) (ls : List ℚ) :
    (runCalls s (l :: ls)).best_loss.isSome := by
  induction ls generalizing s l with
  | nil => exact call_best_loss_isSome s l
  | cons l' ls ih =>
    show (runCalls (s.call l) (l' :: ls)).best_loss.isSome
    exact ih (s.call l) l'

/-- In a state reached from `init`, `best_loss = none` forces the state to
still be the initial one (first call always records a best loss). -/
theorem runCalls_none_eq_init (p : ℕ) (d : ℚ) (ls : List ℚ)
    (h : (runCalls (EarlyStopping.init p d) ls).best_loss = none) :
    runCalls (EarlyStopping.init p d) ls = EarlyStopping.init p d := by
  cases ls with
  | nil => rfl
  | cons l ls =>
    exact absurd h (by
      have := runCalls_best_loss_isSome (EarlyStopping.init p d) l ls
      simpa [Option.isSome_iff_ne_none] using this)

/-- C1: the per-epoch transition of the Early-Stopping Monitor, on a state
that is still tracking (and, as in every reachable state, whose counter is
`0` whenever no best loss is recorded), follows exactly the three-branch
rule: no best yet ⇒ record `v`, counter `0`, stay tracking; no improvement
beyond `delta` ⇒ increment the counter and stop iff `counter ≥ patience`;
improvement ⇒ set `best_loss := v`, reset the counter, stay tracking. -/
theorem earlyStopping_transition_rule (s : EarlyStopping) (v : ℚ)
    (htrack : s.early_stop = false)
    (hfresh : s.best_loss = none → s.counter = 0) :
    (s.best_loss = none →
      (s.call v).best_loss = some v ∧ (s.call v).counter = 0 ∧
        (s.call v).early_stop = false) ∧
    (s.best_loss ≠ none → v > s.best_loss.getD 0 - s.delta →
      (s.call v).best_loss = s.best_loss ∧
        (s.call v).counter = s.counter + 1 ∧
        ((s.call v).early_stop = true ↔ s.patience ≤ s.counter + 1)) ∧
    (s.best_loss ≠ none → ¬ (v > s.best_loss.getD 0 - s.delta) →
      (s.call v).best_loss = some v ∧ (s.call v).counter = 0 ∧
        (s.call v).early_stop = false) := by
  unfold EarlyStopping.call
  cases hb : s.best_loss with
  | none =>
    refine ⟨fun _ => ⟨rfl, hfresh hb, htrack⟩, fun h => absurd rfl h, fun h => absurd rfl h⟩
  | some b =>
    refine ⟨fun h => by simp at h, fun _ hgt => ?_, fun _ hle => ?_⟩
    · simp only [Option.getD_some] at hgt
      refine ⟨by simp [hgt], by simp [hgt], ?_⟩
      by_cases hp : s.patience ≤ s.counter + 1 <;> simp [hgt, hp, htrack]
    · simp only [Option.getD_some] at hle
      exact ⟨by simp [hle], by simp [hle], by simp [hle, htrack]⟩

/-- Witness for C1: a concrete tracking state with `best_loss = 1`,
`patience = 2`, `counter = 0`, called with the worse loss `2`. -/
theorem earlyStopping_transition_rule_witness :
    ((EarlyStopping.mk 2 0 (some 1) 0 false).call 2).best_loss = some 1 ∧
    ((EarlyStopping.mk 2 0 (some 1) 0 false).call 2).counter = 0 + 1 := by
  have h := earlyStopping_transition_rule (EarlyStopping.mk 2 0 (some 1) 0 false) 2
    rfl (by simp)
  have h2 := h.2.1 (by simp) (by norm_num)
  exact ⟨h2.1, h2.2.1⟩

/-- C3 counterexample: a monitor with `patience = 1` is driven into the
stopped state by the loss sequence `[1, 2]`; a further call with loss `3`
is *not* a no-op — it increments the counter. -/
theorem earlyStopping_stopped_not_noop :
    (runCalls (EarlyStopping.init 1 0) [1, 2]).early_stop = true ∧
    (runCalls (EarlyStopping.init 1 0) [1, 2]).call 3 ≠
      runCalls (EarlyStopping.init 1 0) [1, 2] := by
  constructor <;> norm_num [runCalls, EarlyStopping.call, EarlyStopping.init]

/-- `call` never clears the `early_stop` flag. -/
theorem call_stopped_persists (s : EarlyStopping) (v : ℚ)
    (h : s.early_stop = true) : (s.call v).early_stop = true := by
  unfold EarlyStopping.call
  cases hb : s.best_loss with
  | none => exact h
  | some b =>
    by_cases hc : v > b - s.delta
    · by_cases hp : s.counter + 1 ≥ s.patience <;> simp [hc, hp, h]
    · simp [hc, h]

/-- C3 amended: once the stopped flag is set it is never cleared by any
further sequence of calls (and calls always succeed, the transition being
a total function); however, `best_loss` and `counter` may still change
after stopping, so later calls are not literal no-ops. -/
theorem earlyStopping_stopped_flag_persists (s : EarlyStopping)
    (ls : List ℚ) (h : s.early_stop = true) :
    (runCalls s ls).early_stop = true := by
  induction ls generalizing s with
  | nil => exact h
  | cons l ls ih => exact ih (s.call l) (call_stopped_persists s l h)

/-- Witness for the amended C3: the concrete stopped monitor reached via
losses `[1, 2]` stays stopped over two further calls. -/
theorem earlyStopping_stopped_flag_persists_witness :
    (runCalls (runCalls (EarlyStopping.init 1 0) [1, 2]) [5, 0]).early_stop
      = true :=
  earlyStopping_stopped_flag_persists (runCalls (EarlyStopping.init 1 0) [1, 2])
    [5, 0] (by norm_num [runCalls, EarlyStopping.call, EarlyStopping.init])

/-- C5: with `delta = 0`, a loss exactly equal to the current best takes
the improvement branch — `best_loss := v`, counter reset to `0`, the
monitor stays tracking — and consequently the constant loss sequence
`[1, 1, 1]` with `patience = 2` never stops. -/
theorem earlyStopping_equality_is_improvement (s : EarlyStopping) (b v : ℚ)
    (hd : s.delta = 0) (hb : s.best_loss = some b) (hv : v = b)
    (htrack : s.early_stop = false) :
    s.call v = { s with best_loss := some v, counter := 0 } ∧
    (s.call v).early_stop = false ∧
    (runCalls (EarlyStopping.init 2 0) [1, 1, 1]).early_stop = false := by
  refine ⟨?_, ?_, by norm_num [runCalls, EarlyStopping.call, EarlyStopping.init]⟩ <;>
    · unfold EarlyStopping.call
      simp [hb, hd, hv, htrack]

/-- Witness for C5 at the concrete state `⟨patience 2, delta 0, best 1,
counter 1, tracking⟩` called with the equal loss `1`. -/
theorem earlyStopping_equality_is_improvement_witness :
    (EarlyStopping.mk 2 0 (some 1) 1 false).call 1 =
      EarlyStopping.mk 2 0 (some 1) 0 false :=
  (earlyStopping_equality_is_improvement (EarlyStopping.mk 2 0 (some 1) 1 false)
    1 1 rfl rfl rfl rfl).1

/-- If one call leaves the flag down, the resulting counter is below
`patience` (given `patience ≥ 1` and the invariant before the call). -/
theorem call_counter_lt (s : EarlyStopping) (v : ℚ)
    (hp : 1 ≤ s.patience) (hlt : s.early_stop = false → s.counter < s.patience)
    (hes : (s.call v).early_stop = false) : (s.call v).counter < s.patience := by
  cases hb : s.best_loss with
  | none =>
    simp only [EarlyStopping.call, hb] at hes ⊢
    exact hlt hes
  | some b =>
    by_cases hc : v > b - s.delta
    · simp only [EarlyStopping.call, hb, if_pos hc] at hes ⊢
      by_cases hge : s.counter + 1 ≥ s.patience
      · rw [if_pos hge] at hes
        exact absurd hes (by simp)
      · omega
    · simp only [EarlyStopping.call, hb, if_neg hc] at hes ⊢
      exact hp

/-- One call preserves the C10 invariant. -/
theorem call_preserves_goodES (s : EarlyStopping) (v : ℚ) (h : GoodES s) :
    GoodES (s.call v) :=
  ⟨by rw [call_patience]; exact h.1,
   fun hes => by rw [call_patience]; exact call_counter_lt s v h.1 h.2 hes⟩

/-- Any run of calls preserves the C10 invariant. -/
theorem runCalls_preserves_goodES (s : EarlyStopping) (ls : List ℚ)
    (h : GoodES s) : GoodES (runCalls s ls) := by
  induction ls generalizing s with
  | nil => exact h
  | cons l ls ih => exact ih (s.call l) (call_preserves_goodES s l h)

/-- A run of calls never changes `patience`. -/
theorem runCalls_patience (s : EarlyStopping) (ls : List ℚ) :
    (runCalls s ls).patience = s.patience := by
  induction ls generalizing s with
  | nil => rfl
  | cons l ls ih => exact (ih (s.call l)).trans (call_patience s l)

/-- C10: for a monitor constructed with `patience ≥ 1` and `delta ≥ 0`,
after any sequence of calls, if the stopped flag is still down then
`counter < patience`. -/
theorem earlyStopping_counter_lt_patience (p : ℕ) (d : ℚ) (ls : List ℚ)
    (hp : 1 ≤ p) (hd : 0 ≤ d)
    (hns : (runCalls (EarlyStopping.init p d) ls).early_stop = false) :
    (runCalls (EarlyStopping.init p d) ls).counter < p := by
  have h := (runCalls_preserves_goodES (EarlyStopping.init p d) ls
    ⟨hp, fun _ => hp⟩).2 hns
  rw [runCalls_patience] at h
  exact h

/-- Witness for C10: `patience = 1`, `delta = 0`, losses `[1, 1]` — the
monitor is still tracking and its counter is below `patience`. -/
theorem earlyStopping_counter_lt_patience_witness :
    (runCalls (EarlyStopping.init 1 0) [1, 1]).counter < 1 :=
  earlyStopping_counter_lt_patience 1 0 [1, 1] (by decide) (by decide)
    (by norm_num [runCalls, EarlyStopping.call, EarlyStopping.init])

/-! ### Trial selection properties -/

/-- One callback invocation never increases the recorded best loss. -/
theorem callback_loss_le (st : BestState) (t : TrialOutcome) :
    (save_best_model_callback st t).best_validation_loss ≤
      st.best_validation_loss := by
  unfold save_best_model_callback
  split
  · next h => exact le_of_lt h
  · exact le_refl _

/-- One callback invocation leaves the best loss at or below this trial's
loss. -/
theorem callback_loss_le_trial (st : BestState) (t : TrialOutcome) :
    (save_best_model_callback st t).best_validation_loss ≤ t.best_val_loss := by
  unfold save_best_model_callback
  split
  · exact le_refl _
  · next h => exact le_of_not_lt h

/-- Folding the callback never increases the recorded best loss. -/
theorem foldl_callback_loss_le (st : BestState) (ts : List TrialOutcome) :
    (ts.foldl save_best_model_callback st).best_validation_loss ≤
      st.best_validation_loss := by
  induction ts generalizing st with
  | nil => exact le_refl _
  | cons t ts ih =>
    exact le_trans (ih (save_best_model_callback st t)) (callback_loss_le st t)

/-- After folding the callback, the best loss is at or below every
considered trial's loss. -/
theorem foldl_callback_loss_le_mem (st : BestState) (ts : List TrialOutcome) :
    ∀ t ∈ ts, (ts.foldl save_best_model_callback st).best_validation_loss ≤
      t.best_val_loss := by
  induction ts generalizing st with
  | nil => intro t ht; exact absurd ht (List.not_mem_nil t)
  | cons t₀ ts ih =>
    intro t ht
    rcases List.mem_cons.mp ht with rfl | hmem
    · exact le_trans (foldl_callback_loss_le (save_best_model_callback st t) ts)
        (callback_loss_le_trial st t)
    · exact ih (save_best_model_callback st t₀) t hmem

/-- After folding the callback, the state is either untouched or is the
record of one of the considered trials. -/
theorem foldl_callback_origin (st : BestState) (ts : List TrialOutcome) :
    ts.foldl save_best_model_callback st = st ∨
    ∃ t ∈ ts, ts.foldl save_best_model_callback st =
      { best_validation_loss := t.best_val_loss,
        best_model_path := some t.best_model_path } := by
  induction ts generalizing st with
  | nil => exact Or.inl rfl
  | cons t₀ ts ih =>
    rw [List.foldl_cons]
    rcases ih (save_best_model_callback st t₀) with h | ⟨t, hmem, h⟩
    · rw [h]
      unfold save_best_model_callback
      split
      · exact Or.inr ⟨t₀, List.mem_cons_self t₀ ts, rfl⟩
      · exact Or.inl rfl
    · exact Or.inr ⟨t, List.mem_cons_of_mem t₀ hmem, h⟩

/-- C4 counterexample: the global best is initialized to `1000000`, not to
`+∞`; a single considered trial with loss `2000000` is *not* recorded,
so the global best checkpoint reference does not point to the trial with
the lowest `best_loss_seen` (there is one, this very trial). -/
theorem save_best_counterexample :
    (runStudy [TrialOutcome.mk 2000000 7]).best_model_path ≠ some 7 ∧
    (runStudy [TrialOutcome.mk 2000000 7]).best_validation_loss ≠ 2000000 := by
  have hstate : runStudy [TrialOutcome.mk 2000000 7] = initBest := by
    norm_num [runStudy, save_best_model_callback, initBest]
  rw [hstate]
  refine ⟨by simp [initBest], by norm_num [initBest]⟩

/-- C4 amended: `consider` compares each trial's loss against a global
best initialized to `1000000` (not `+∞`) and replaces the record iff
strictly lower, otherwise changes nothing; consequently the recorded best
loss is a lower bound of `1000000` and of all considered losses, never
regresses as more trials are considered, and whenever the checkpoint
reference is set it points to a considered trial whose loss equals the
recorded (minimal) best loss; it is set as soon as some trial's loss is
below `1000000`. -/
theorem save_best_amended (ts : List TrialOutcome) (t' : TrialOutcome) :
    (∀ st t, (t.best_val_loss < st.best_validation_loss →
        save_best_model_callback st t =
          { best_validation_loss := t.best_val_loss,
            best_model_path := some t.best_model_path }) ∧
      (¬ t.best_val_loss < st.best_validation_loss →
        save_best_model_callback st t = st)) ∧
    (runStudy ts).best_validation_loss ≤ 1000000 ∧
    (∀ t ∈ ts, (runStudy ts).best_validation_loss ≤ t.best_val_loss) ∧
    (∀ p, (runStudy ts).best_model_path = some p →
      ∃ t ∈ ts, t.best_model_path = p ∧
        t.best_val_loss = (runStudy ts).best_validation_loss) ∧
    ((∃ t ∈ ts, t.best_val_loss < 1000000) →
      (runStudy ts).best_model_path ≠ none) ∧
    (runStudy (ts ++ [t'])).best_validation_loss ≤
      (runStudy ts).best_validation_loss := by
  refine ⟨?_, ?_, ?_, ?_, ?_, ?_⟩
  · intro st t
    constructor <;> intro h <;> unfold save_best_model_callback <;>
      simp [if_pos, if_neg, h]
  · exact foldl_callback_loss_le initBest ts
  · exact foldl_callback_loss_le_mem initBest ts
  · intro p hp
    unfold runStudy at hp ⊢
    rcases foldl_callback_origin initBest ts with h | ⟨t, hmem, h⟩
    · rw [h] at hp
      exact absurd hp (by simp [initBest])
    · rw [h] at hp ⊢
      exact ⟨t, hmem, Option.some_inj.mp hp, rfl⟩
  · rintro ⟨t, hmem, hlt⟩ hnone
    unfold runStudy at hnone
    rcases foldl_callback_origin initBest ts with h | ⟨u, humem, h⟩
    · have hle := foldl_callback_loss_le_mem initBest ts t hmem
      rw [h] at hle
      simp only [initBest] at hle
      exact absurd (lt_of_le_of_lt hle hlt) (lt_irrefl _)
    · rw [h] at hnone
      exact absurd hnone (by simp)
  · unfold runStudy
    rw [List.foldl_append]
    exact callback_loss_le (ts.foldl save_best_model_callback initBest) t'

/-- Witness for the amended C4 at the trial losses `[5, 3, 4]`: the final
best loss is at most `3`. -/
theorem save_best_amended_witness :
    (runStudy [TrialOutcome.mk 5 1, TrialOutcome.mk 3 2,
      TrialOutcome.mk 4 3]).best_validation_loss ≤ 3 :=
  (save_best_amended [TrialOutcome.mk 5 1, TrialOutcome.mk 3 2,
    TrialOutcome.mk 4 3] (TrialOutcome.mk 2 4)).2.2.1
    (TrialOutcome.mk 3 2) (by simp)

/-! ### Confusion-count arithmetic -/

/-- The match count splits into true positives plus true negatives. -/
theorem countIf_match_eq (l : List (Bool × Bool)) :
    countIf (fun q => q.1 = q.2) l =
      countIf (fun q => q.1 = true ∧ q.2 = true) l +
      countIf (fun q => q.1 = false ∧ q.2 = false) l := by
  induction l with
  | nil => rfl
  | cons a l ih =>
    obtain ⟨b, c⟩ := a
    cases b <;> cases c <;> simp [countIf, ih] <;> omega

/-- The four confusion counts partition the paired list. -/
theorem countIf_four_eq_length (l : List (Bool × Bool)) :
    countIf (fun q => q.1 = true ∧ q.2 = true) l +
      countIf (fun q => q.1 = false ∧ q.2 = false) l +
      countIf (fun q => q.1 = false ∧ q.2 = true) l +
      countIf (fun q => q.1 = true ∧ q.2 = false) l = l.length := by
  induction l with
  | nil => rfl
  | cons a l ih =>
    obtain ⟨b, c⟩ := a
    cases b <;> cases c <;> simp [countIf] <;> omega

/-- C9: on matched non-empty inputs, `calculate_metrics` succeeds and its
accuracy component is `(TP+TN)/(TP+TN+FP+FN)` for the predictions
binarized at the strict threshold `score > 0.5`; a score of exactly `0.5`
is classified negative. -/
theorem accuracy_eq_confusion (y_true : List Bool) (y_pred : List ℚ)
    (hlen : y_true.length = y_pred.length) (hne : y_true ≠ []) :
    calculate_metrics y_true y_pred = .ok
      (some (((truePos y_true (binarize y_pred) +
          trueNeg y_true (binarize y_pred) : ℕ) : ℚ) /
        ((truePos y_true (binarize y_pred) + trueNeg y_true (binarize y_pred) +
          falsePos y_true (binarize y_pred) +
          falseNeg y_true (binarize y_pred) : ℕ) : ℚ)),
       recall_score y_true (binarize y_pred),
       f1_score y_true (binarize y_pred)) ∧
    binarize [(1 : ℚ) / 2] = [false] := by
  have hzip : (y_true.zip (binarize y_pred)).length = y_true.length := by
    simp [List.length_zip, binarize, ← hlen]
  have hlen0 : y_true.length ≠ 0 := fun h => hne (List.length_eq_zero.mp h)
  constructor
  · have hacc : accuracy_score y_true (binarize y_pred) =
        some (((truePos y_true (binarize y_pred) +
            trueNeg y_true (binarize y_pred) : ℕ) : ℚ) /
          ((truePos y_true (binarize y_pred) +
            trueNeg y_true (binarize y_pred) +
            falsePos y_true (binarize y_pred) +
            falseNeg y_true (binarize y_pred) : ℕ) : ℚ)) := by
      unfold accuracy_score
      rw [if_neg hlen0]
      refine congrArg some ?_
      rw [countIf_match_eq]
      have hsum := countIf_four_eq_length (y_true.zip (binarize y_pred))
      rw [hzip] at hsum
      unfold truePos trueNeg falsePos falseNeg
      rw [← hsum]
    unfold calculate_metrics
    rw [if_neg (by omega), hacc]
  · norm_num [binarize]

/-- Witness for C9: labels `[false, true]`, scores `[1/2, 7/10]` — the
score `1/2` is classified negative, so TP = TN = 1, FP = FN = 0 and the
accuracy is `(1+1)/(1+1+0+0) = 1`. -/
theorem accuracy_eq_confusion_witness :
    calculate_metrics [false, true] [(1 : ℚ) / 2, 7 / 10] = .ok
      (some (((truePos [false, true] (binarize [(1 : ℚ) / 2, 7 / 10]) +
          trueNeg [false, true] (binarize [(1 : ℚ) / 2, 7 / 10]) : ℕ) : ℚ) /
        ((truePos [false, true] (binarize [(1 : ℚ) / 2, 7 / 10]) +
          trueNeg [false, true] (binarize [(1 : ℚ) / 2, 7 / 10]) +
          falsePos [false, true] (binarize [(1 : ℚ) / 2, 7 / 10]) +
          falseNeg [false, true] (binarize [(1 : ℚ) / 2, 7 / 10]) : ℕ) : ℚ)),
       recall_score [false, true] (binarize [(1 : ℚ) / 2, 7 / 10]),
       f1_score [false, true] (binarize [(1 : ℚ) / 2, 7 / 10])) :=
  (accuracy_eq_confusion [false, true] [(1 : ℚ) / 2, 7 / 10] rfl
    (by simp)).1

/-- `absQ` agrees with Mathlib's absolute value. -/
theorem absQ_eq_abs (x : ℚ) : absQ x = |x| := by
  unfold absQ
  split
  · next h => exact (abs_of_nonneg h).symm
  · next h => exact (abs_of_neg (lt_of_not_le h)).symm

/-- A predicate counting no element of a list is a zero count. -/
theorem countIf_eq_zero_of {α : Type} (p : α → Prop) [DecidablePred p]
    (l : List α) (h : ∀ a ∈ l, ¬ p a) : countIf p l = 0 := by
  induction l with
  | nil => rfl
  | cons a l ih =>
    simp only [countIf, if_neg (h a (List.mem_cons_self a l))]
    exact ih (fun b hb => h b (List.mem_cons_of_mem a hb))

/-- A satisfied element makes a count positive. -/
theorem countIf_pos_of_mem {α : Type} (p : α → Prop) [DecidablePred p]
    (l : List α) (a : α) (ha : a ∈ l) (hp : p a) : 0 < countIf p l := by
  induction l with
  | nil => exact absurd ha (List.not_mem_nil a)
  | cons b l ih =>
    rcases List.mem_cons.mp ha with rfl | hmem
    · simp [countIf, if_pos hp]
    · simp only [countIf]
      exact Nat.lt_of_lt_of_le (ih hmem) (Nat.le_add_right _ _)

/-- C7: on matched non-empty single-class inputs, `calculate_eer` fails
(the all-NaN rate array makes `np.nanargmin` raise `ValueError`) instead
of returning a numeric placeholder. -/
theorem eer_single_class_fails (labels : List Bool) (scores : List ℚ)
    (hlen : labels.length = scores.length) (hne : labels ≠ [])
    (hone : (∀ b ∈ labels, b = true) ∨ (∀ b ∈ labels, b = false)) :
    calculate_eer labels scores = .error .degenerate := by
  have hPN : countIf (fun b => b = true) labels = 0 ∨
      countIf (fun b => b = false) labels = 0 := by
    rcases hone with h | h
    · exact Or.inr (countIf_eq_zero_of _ _ (fun a ha => by simp [h a ha]))
    · exact Or.inl (countIf_eq_zero_of _ _ (fun a ha => by simp [h a ha]))
  unfold calculate_eer
  rw [if_neg (by omega), if_neg hne, if_pos hPN]

/-- Witness for C7: two genuine (`true`) labels, any scores. -/
theorem eer_single_class_fails_witness :
    calculate_eer [true, true] [(1 : ℚ) / 2, 1 / 3] = .error .degenerate :=
  eer_single_class_fails [true, true] [(1 : ℚ) / 2, 1 / 3] rfl (by simp)
    (Or.inl (by simp))

/-- C6 counterexample: empty label/score sequences do *not* fail fast —
the accuracy/recall/F1 path returns placeholder values (`NaN` accuracy,
modelled `none`, and `0.0` for recall and F1, scikit-learn's
`zero_division` defaults) instead of raising. -/
theorem metrics_empty_returns_placeholder :
    calculate_metrics [] [] = .ok (none, 0, 0) := by
  norm_num [calculate_metrics, accuracy_score, recall_score, f1_score,
    precision_score, truePos, trueNeg, falsePos, falseNeg, countIf, binarize]

/-- C6 amended: mismatched-length inputs do fail fast with an error in
every metric operation, and empty inputs fail for EER; but on empty
inputs the accuracy/precision/recall/F1 path returns placeholder values
(`NaN` accuracy, `0.0` elsewhere) rather than failing. -/
theorem metrics_invalid_input_amended (y_true : List Bool) (y_pred : List ℚ) :
    (y_true.length ≠ y_pred.length →
      calculate_metrics y_true y_pred = .error .lengthMismatch ∧
      calculate_metrics_4 y_true y_pred = .error .lengthMismatch ∧
      calculate_eer y_true y_pred = .error .lengthMismatch) ∧
    (y_true = [] → y_pred = [] →
      calculate_metrics y_true y_pred = .ok (none, 0, 0) ∧
      calculate_metrics_4 y_true y_pred = .ok (none, 0, 0, 0) ∧
      calculate_eer y_true y_pred = .error .emptyInput) := by
  constructor
  · intro h
    refine ⟨?_, ?_, ?_⟩ <;>
      simp [calculate_metrics, calculate_metrics_4, calculate_eer, h]
  · rintro rfl rfl
    refine ⟨?_, ?_, ?_⟩ <;>
      norm_num [calculate_metrics, calculate_metrics_4, calculate_eer,
        accuracy_score, recall_score, f1_score, precision_score,
        truePos, trueNeg, falsePos, falseNeg, countIf, binarize]

/-- Witness for the amended C6: a mismatched pair fails for EER, the
empty pair yields the placeholder triple. -/
theorem metrics_invalid_input_amended_witness :
    calculate_eer [true] [] = .error .lengthMismatch ∧
    calculate_metrics ([] : List Bool) ([] : List ℚ) = .ok (none, 0, 0) :=
  ⟨((metrics_invalid_input_amended [true] []).1 (by simp)).2.2,
   ((metrics_invalid_input_amended [] []).2 rfl rfl).1⟩

/-! ### Properties of the minimum-index selection (`np.nanargmin`) -/

/-- `listMinD` is a lower bound of the list. -/
theorem listMinD_le (l : List ℚ) : ∀ x ∈ l, listMinD l ≤ x := by
  induction l with
  | nil => intro x hx; exact absurd hx (List.not_mem_nil x)
  | cons a l ih =>
    intro x hx
    cases l with
    | nil =>
      rcases List.mem_cons.mp hx with rfl | h
      · exact le_refl x
      · exact absurd h (List.not_mem_nil x)
    | cons b bs =>
      rw [show listMinD (a :: b :: bs) =
        if a ≤ listMinD (b :: bs) then a else listMinD (b :: bs) from rfl]
      rcases List.mem_cons.mp hx with rfl | h
      · split
        · exact le_refl x
        · next hna => exact le_of_not_le hna
      · split
        · next ha => exact le_trans ha (ih x h)
        · exact ih x h

/-- `listMinD` is attained on a nonempty list. -/
theorem listMinD_mem (l : List ℚ) (h : l ≠ []) : listMinD l ∈ l := by
  induction l with
  | nil => exact absurd rfl h
  | cons a l ih =>
    cases l with
    | nil => exact List.mem_singleton.mpr rfl
    | cons b bs =>
      rw [show listMinD (a :: b :: bs) =
        if a ≤ listMinD (b :: bs) then a else listMinD (b :: bs) from rfl]
      split
      · exact List.mem_cons_self _ _
      · exact List.mem_cons_of_mem a (ih (by simp))

/-- The first-occurrence index of a present value is a legal index. -/
theorem findIdxMin_lt_length (m : ℚ) (l : List ℚ) (h : m ∈ l) :
    findIdxMin m l < l.length := by
  induction l with
  | nil => exact absurd h (List.not_mem_nil m)
  | cons a l ih =>
    unfold findIdxMin
    split
    · simp
    · next hne =>
      have : m ∈ l := by
        rcases List.mem_cons.mp h with rfl | hm
        · exact absurd rfl hne
        · exact hm
      simpa [Nat.succ_lt_succ_iff] using ih this

/-- The element at the first-occurrence index is the value itself. -/
theorem getD_findIdxMin (m : ℚ) (l : List ℚ) (h : m ∈ l) :
    l.getD (findIdxMin m l) 0 = m := by
  induction l with
  | nil => exact absurd h (List.not_mem_nil m)
  | cons a l ih =>
    unfold findIdxMin
    split
    · next heq => simpa using heq
    · next hne =>
      have : m ∈ l := by
        rcases List.mem_cons.mp h with rfl | hm
        · exact absurd rfl hne
        · exact hm
      simpa using ih this

/-- No earlier index holds the value: the selection is the *first*
minimizing index. -/
theorem findIdxMin_first (m : ℚ) (l : List ℚ) :
    ∀ j < findIdxMin m l, l.getD j 0 ≠ m := by
  induction l with
  | nil => intro j hj; simp [findIdxMin] at hj
  | cons a l ih =>
    intro j hj
    unfold findIdxMin at hj
    split at hj
    · exact absurd hj (Nat.not_lt_zero j)
    · next hne =>
      cases j with
      | zero => simpa using hne
      | succ j =>
        have := ih j (Nat.lt_of_succ_lt_succ hj)
        simpa using this

/-! ### Properties of the threshold list -/

/-- Membership in `insertDesc`. -/
theorem mem_insertDesc (a b : ℚ) (l : List ℚ) :
    b ∈ insertDesc a l ↔ b = a ∨ b ∈ l := by
  induction l with
  | nil => simp [insertDesc]
  | cons c cs ih =>
    unfold insertDesc
    by_cases h1 : a > c
    · simp [if_pos h1, List.mem_cons]
    · rw [if_neg h1]
      by_cases h2 : a = c
      · subst h2
        rw [if_pos rfl]
        simp only [List.mem_cons]
        tauto
      · rw [if_neg h2]
        simp only [List.mem_cons, ih]
        tauto

/-- `insertDesc` preserves strict descending sortedness. -/
theorem insertDesc_sorted (a : ℚ) (l : List ℚ) (h : l.Sorted (· > ·)) :
    (insertDesc a l).Sorted (· > ·) := by
  induction l with
  | nil => simp [insertDesc]
  | cons c cs ih =>
    have hs := List.sorted_cons.mp h
    unfold insertDesc
    by_cases h1 : a > c
    · rw [if_pos h1]
      refine List.sorted_cons.mpr ⟨?_, h⟩
      intro b hb
      rcases List.mem_cons.mp hb with rfl | hmem
      · exact h1
      · exact lt_trans (hs.1 b hmem) h1
    · rw [if_neg h1]
      by_cases h2 : a = c
      · rw [if_pos h2]; exact h
      · rw [if_neg h2]
        refine List.sorted_cons.mpr ⟨?_, ih hs.2⟩
        intro b hb
        rcases (mem_insertDesc a b cs).mp hb with rfl | hmem
        · exact lt_of_le_of_ne (le_of_not_lt h1) h2
        · exact hs.1 b hmem

/-- The threshold list is strictly decreasing. -/
theorem distinctDesc_sorted (l : List ℚ) : (distinctDesc l).Sorted (· > ·) := by
  induction l with
  | nil => simp [distinctDesc]
  | cons a l ih => exact insertDesc_sorted a (distinctDesc l) ih

/-- The threshold list holds exactly the values of the score list. -/
theorem mem_distinctDesc (l : List ℚ) (t : ℚ) :
    t ∈ distinctDesc l ↔ t ∈ l := by
  induction l with
  | nil => simp [distinctDesc]
  | cons a l ih =>
    show t ∈ insertDesc a (distinctDesc l) ↔ _
    rw [mem_insertDesc, ih, List.mem_cons]

/-! ### Bounds on the curve points -/

/-- Counting a stronger predicate counts at most as much. -/
theorem countIf_mono {α : Type} (p q : α → Prop) [DecidablePred p]
    [DecidablePred q] (l : List α) (h : ∀ a, p a → q a) :
    countIf p l ≤ countIf q l := by
  induction l with
  | nil => exact le_refl 0
  | cons a l ih =>
    simp only [countIf]
    by_cases hp : p a
    · rw [if_pos hp, if_pos (h a hp)]
      omega
    · rw [if_neg hp]
      split <;> omega

/-- Counting a first-component predicate over a zip of equal-length lists
counts over the first list. -/
theorem countIf_fst_zip {β : Type} (p : Bool → Prop) [DecidablePred p]
    (labels : List Bool) (scores : List β)
    (hlen : labels.length = scores.length) :
    countIf (fun q => p q.1) (labels.zip scores) = countIf p labels := by
  induction labels generalizing scores with
  | nil => rfl
  | cons a l ih =>
    cases scores with
    | nil => exact absurd hlen (by simp)
    | cons s ss =>
      show countIf _ ((a, s) :: l.zip ss) = _
      simp only [countIf]
      rw [ih ss (by simpa using hlen)]

/-- Every point of the clf curve is bounded by the class totals. -/
theorem clfPoints_bounds (labels : List Bool) (scores : List ℚ)
    (hlen : labels.length = scores.length) :
    ∀ q ∈ clfPoints labels scores,
      q.1 ≤ countIf (fun b => b = false) labels ∧
      q.2 ≤ countIf (fun b => b = true) labels := by
  intro q hq
  obtain ⟨t, _, rfl⟩ := List.mem_map.mp hq
  constructor
  · calc fpsAt labels scores t
        ≤ countIf (fun q : Bool × ℚ => q.1 = false) (labels.zip scores) :=
          countIf_mono _ _ _ (fun a ha => ha.1)
      _ = countIf (fun b => b = false) labels :=
          countIf_fst_zip (fun b => b = false) labels scores hlen
  · calc tpsAt labels scores t
        ≤ countIf (fun q : Bool × ℚ => q.1 = true) (labels.zip scores) :=
          countIf_mono _ _ _ (fun a ha => ha.1)
      _ = countIf (fun b => b = true) labels :=
          countIf_fst_zip (fun b => b = true) labels scores hlen

/-- `dropIntermediate` only returns points of its input. -/
theorem mem_dropIntermediate (pts : List (ℕ × ℕ)) :
    ∀ q ∈ dropIntermediate pts, q ∈ pts := by
  intro q hq
  unfold dropIntermediate at hq
  split at hq
  · exact hq
  · obtain ⟨i, hi, rfl⟩ := List.mem_map.mp hq
    have hilt : i < pts.length := List.mem_range.mp (List.mem_filter.mp hi).1
    rw [List.getD_eq_getElem pts (0, 0) hilt]
    exact List.getElem_mem _

/-- Every point of the final curve is bounded by the class totals. -/
theorem rocCurvePoints_bounds (labels : List Bool) (scores : List ℚ)
    (hlen : labels.length = scores.length) :
    ∀ q ∈ rocCurvePoints labels scores,
      q.1 ≤ countIf (fun b => b = false) labels ∧
      q.2 ≤ countIf (fun b => b = true) labels := by
  intro q hq
  rcases List.mem_cons.mp hq with rfl | hmem
  · exact ⟨Nat.zero_le _, Nat.zero_le _⟩
  · exact clfPoints_bounds labels scores hlen q
      (mem_dropIntermediate _ q hmem)

/-- The mean of two rates with bounded numerators lies in `[0, 1]`. -/
theorem eer_mean_bounds (a b P N : ℕ) (hN : 0 < N) (hP : 0 < P)
    (ha : a ≤ N) (hb : b ≤ P) :
    0 ≤ ((a : ℚ) / N + (1 - (b : ℚ) / P)) / 2 ∧
    ((a : ℚ) / N + (1 - (b : ℚ) / P)) / 2 ≤ 1 := by
  have hN' : (0 : ℚ) < N := by exact_mod_cast hN
  have hP' : (0 : ℚ) < P := by exact_mod_cast hP
  have h1 : (0 : ℚ) ≤ (a : ℚ) / N := div_nonneg (by positivity) (le_of_lt hN')
  have h2 : (a : ℚ) / N ≤ 1 := (div_le_one hN').mpr (by exact_mod_cast ha)
  have h3 : (0 : ℚ) ≤ (b : ℚ) / P := div_nonneg (by positivity) (le_of_lt hP')
  have h4 : (b : ℚ) / P ≤ 1 := (div_le_one hP').mpr (by exact_mod_cast hb)
  constructor <;> linarith

/-- C2 amended: on matched inputs containing both classes,
`calculate_eer` succeeds; the thresholds swept are the distinct score
values in strictly decreasing order, but the operating points retained
are those of `roc_curve` with its default `drop_intermediate=True`
(collinear interior points removed) plus the prepended origin; the
selected index is the *first* minimizer of `|FNR − FPR|` over that
retained curve (the highest-threshold minimizer, since the sweep is in
decreasing-threshold order); the returned value is the mean of FPR and
FNR there and lies in `[0, 1]`. -/
theorem eer_selects_first_min_of_retained_curve (labels : List Bool)
    (scores : List ℚ) (hlen : labels.length = scores.length)
    (hpos : true ∈ labels) (hneg : false ∈ labels) :
    ∃ e : ℚ,
      calculate_eer labels scores = .ok e ∧
      0 ≤ e ∧ e ≤ 1 ∧
      (distinctDesc scores).Sorted (· > ·) ∧
      (∀ t : ℚ, t ∈ distinctDesc scores ↔ t ∈ scores) ∧
      eerIndex labels scores < (rocCurvePoints labels scores).length ∧
      (∀ j, j < (rocGaps labels scores).length →
        (rocGaps labels scores).getD (eerIndex labels scores) 0 ≤
          (rocGaps labels scores).getD j 0) ∧
      (∀ j, j < eerIndex labels scores →
        (rocGaps labels scores).getD (eerIndex labels scores) 0 <
          (rocGaps labels scores).getD j 0) ∧
      e = ((((rocCurvePoints labels scores).getD (eerIndex labels scores)
            (0, 0)).1 : ℚ) / (rocN labels : ℚ) +
          (1 - (((rocCurvePoints labels scores).getD (eerIndex labels scores)
            (0, 0)).2 : ℚ) / (rocP labels : ℚ))) / 2 := by
  have hPpos : 0 < countIf (fun b => b = true) labels :=
    countIf_pos_of_mem _ labels true hpos rfl
  have hNpos : 0 < countIf (fun b => b = false) labels :=
    countIf_pos_of_mem _ labels false hneg rfl
  have hnil : labels ≠ [] := List.ne_nil_of_mem hpos
  have hgaps_len : (rocGaps labels scores).length =
      (rocCurvePoints labels scores).length := List.length_map _ _
  have hgaps_ne : rocGaps labels scores ≠ [] := by
    unfold rocGaps gapsList rocCurvePoints
    simp
  have hmin_mem : listMinD (rocGaps labels scores) ∈ rocGaps labels scores :=
    listMinD_mem _ hgaps_ne
  have hi_lt : eerIndex labels scores < (rocGaps labels scores).length :=
    findIdxMin_lt_length _ _ hmin_mem
  have hgetmin : (rocGaps labels scores).getD (eerIndex labels scores) 0 =
      listMinD (rocGaps labels scores) := getD_findIdxMin _ _ hmin_mem
  have hq_mem : (rocCurvePoints labels scores).getD (eerIndex labels scores)
      (0, 0) ∈ rocCurvePoints labels scores := by
    rw [List.getD_eq_getElem _ _ (hgaps_len ▸ hi_lt)]
    exact List.getElem_mem _
  have hbounds := rocCurvePoints_bounds labels scores hlen _ hq_mem
  have hmean := eer_mean_bounds
    ((rocCurvePoints labels scores).getD (eerIndex labels scores) (0, 0)).1
    ((rocCurvePoints labels scores).getD (eerIndex labels scores) (0, 0)).2
    (countIf (fun b => b = true) labels) (countIf (fun b => b = false) labels)
    hNpos hPpos hbounds.1 hbounds.2
  refine ⟨eerValue labels scores, ?_, hmean.1, hmean.2,
    distinctDesc_sorted scores, mem_distinctDesc scores,
    hgaps_len ▸ hi_lt, ?_, ?_, rfl⟩
  · unfold calculate_eer
    rw [if_neg (by omega), if_neg hnil,
      if_neg (by push_neg; exact ⟨Nat.pos_iff_ne_zero.mp hPpos,
        Nat.pos_iff_ne_zero.mp hNpos⟩)]
  · intro j hj
    rw [hgetmin]
    refine listMinD_le _ _ ?_
    rw [List.getD_eq_getElem _ _ hj]
    exact List.getElem_mem _
  · intro j hj
    rw [hgetmin]
    refine lt_of_le_of_ne ?_ ?_
    · refine listMinD_le _ _ ?_
      rw [List.getD_eq_getElem _ _ (lt_trans hj hi_lt)]
      exact List.getElem_mem _
    · exact fun h => findIdxMin_first _ _ j hj h.symm

/-- Evaluation helper: the code's EER on the collinear staircase
(four positives at score `0.9`, then one negative and one positive at
each of `0.8`, `0.7`, `0.6`, `0.5`). -/
theorem eer_eval_staircase_code :
    calculate_eer
      [true, true, true, true, false, true, false, true, false, true,
        false, true]
      [9/10, 9/10, 9/10, 9/10, 8/10, 8/10, 7/10, 7/10, 6/10, 6/10,
        5/10, 5/10] = .ok (1/4) := by
  norm_num [calculate_eer, eerValue, rocCurvePoints, dropIntermediate,
    clfPoints, distinctDesc, insertDesc, fpsAt, tpsAt, countIf, keepPoint,
    gapsList, firstArgmin, listMinD, findIdxMin, List.getD, absQ,
    List.range_succ, List.cons_ne_nil]

/-- Evaluation helper: the full-sweep EER of the specification on the
same staircase input. -/
theorem eer_eval_staircase_full_sweep :
    equal_error_rate_spec
      [true, true, true, true, false, true, false, true, false, true,
        false, true]
      [9/10, 9/10, 9/10, 9/10, 8/10, 8/10, 7/10, 7/10, 6/10, 6/10,
        5/10, 5/10] = .ok (5/16) := by
  norm_num [equal_error_rate_spec, eerValueSpecSweep, clfPoints,
    distinctDesc, insertDesc, fpsAt, tpsAt, countIf, gapsList,
    firstArgmin, listMinD, findIdxMin, List.getD, absQ, List.cons_ne_nil]

/-- C2 counterexample: the code does *not* sweep every operating point.
On the staircase input, `roc_curve`'s default collinear-point dropping
removes the point that the full sweep described by the specification
would select, so the code returns `1/4` while the specified full sweep
yields `5/16`. -/
theorem eer_not_full_sweep :
    calculate_eer
      [true, true, true, true, false, true, false, true, false, true,
        false, true]
      [9/10, 9/10, 9/10, 9/10, 8/10, 8/10, 7/10, 7/10, 6/10, 6/10,
        5/10, 5/10] = .ok (1/4) ∧
    equal_error_rate_spec
      [true, true, true, true, false, true, false, true, false, true,
        false, true]
      [9/10, 9/10, 9/10, 9/10, 8/10, 8/10, 7/10, 7/10, 6/10, 6/10,
        5/10, 5/10] = .ok (5/16) ∧
    (1 : ℚ) / 4 ≠ 5 / 16 :=
  ⟨eer_eval_staircase_code, eer_eval_staircase_full_sweep, by norm_num⟩

/-- Witness for the amended C2, at the staircase input: the returned
value `1/4` indeed lies in `[0, 1]`. -/
theorem eer_selects_first_min_witness :
    calculate_eer
      [true, true, true, true, false, true, false, true, false, true,
        false, true]
      [9/10, 9/10, 9/10, 9/10, 8/10, 8/10, 7/10, 7/10, 6/10, 6/10,
        5/10, 5/10] = .ok (1/4) ∧
    (0 : ℚ) ≤ 1/4 ∧ (1/4 : ℚ) ≤ 1 := by
  obtain ⟨e, he, h0, h1, -⟩ := eer_selects_first_min_of_retained_curve
    [true, true, true, true, false, true, false, true, false, true,
      false, true]
    [9/10, 9/10, 9/10, 9/10, 8/10, 8/10, 7/10, 7/10, 6/10, 6/10,
      5/10, 5/10] rfl (by simp) (by simp)
  have heq : e = 1/4 := Except.ok.inj (he.symm.trans eer_eval_staircase_code)
  exact ⟨eer_eval_staircase_code, heq ▸ h0, heq ▸ h1⟩

/-! ### C8: invariance under strictly increasing score transforms -/

/-- Counting after an `iff`-equivalent predicate change. -/
theorem countIf_iff {α : Type} (p q : α → Prop) [DecidablePred p]
    [DecidablePred q] (l : List α) (h : ∀ a, p a ↔ q a) :
    countIf p l = countIf q l := by
  induction l with
  | nil => rfl
  | cons a l ih =>
    simp only [countIf, ih]
    by_cases hp : p a
    · rw [if_pos hp, if_pos ((h a).mp hp)]
    · rw [if_neg hp, if_neg (fun hq => hp ((h a).mpr hq))]

/-- Counting over a mapped list counts the composed predicate. -/
theorem countIf_map {α β : Type} (g : α → β) (p : β → Prop) [DecidablePred p]
    (l : List α) : countIf p (l.map g) = countIf (fun a => p (g a)) l := by
  induction l with
  | nil => rfl
  | cons a l ih => simp only [List.map_cons, countIf, ih]

/-- `insertDesc` commutes with a strictly increasing map. -/
theorem insertDesc_map (f : ℚ → ℚ) (hf : StrictMono f) (a : ℚ)
    (l : List ℚ) : insertDesc (f a) (l.map f) = (insertDesc a l).map f := by
  induction l with
  | nil => rfl
  | cons b bs ih =>
    simp only [List.map_cons, insertDesc, hf.lt_iff_lt, hf.injective.eq_iff,
      apply_ite (List.map f), List.map_cons]
    split_ifs
    · rfl
    · rfl
    · rw [ih]

/-- The threshold list of mapped scores is the mapped threshold list. -/
theorem distinctDesc_map (f : ℚ → ℚ) (hf : StrictMono f) (l : List ℚ) :
    distinctDesc (l.map f) = (distinctDesc l).map f := by
  induction l with
  | nil => rfl
  | cons a l ih =>
    show insertDesc (f a) (distinctDesc (l.map f)) = _
    rw [ih]
    exact insertDesc_map f hf a (distinctDesc l)

/-- The `fps` count is invariant under a strictly increasing transform of
scores and threshold alike. -/
theorem fpsAt_map (labels : List Bool) (scores : List ℚ) (f : ℚ → ℚ)
    (hf : StrictMono f) (t : ℚ) :
    fpsAt labels (scores.map f) (f t) = fpsAt labels scores t := by
  unfold fpsAt
  rw [List.zip_map_right, countIf_map]
  exact countIf_iff _ _ _ (fun q => by
    simp only [Prod.map, id]
    exact and_congr_right (fun _ => hf.le_iff_le))

/-- The `tps` count is invariant under a strictly increasing transform of
scores and threshold alike. -/
theorem tpsAt_map (labels : List Bool) (scores : List ℚ) (f : ℚ → ℚ)
    (hf : StrictMono f) (t : ℚ) :
    tpsAt labels (scores.map f) (f t) = tpsAt labels scores t := by
  unfold tpsAt
  rw [List.zip_map_right, countIf_map]
  exact countIf_iff _ _ _ (fun q => by
    simp only [Prod.map, id]
    exact and_congr_right (fun _ => hf.le_iff_le))

/-- The integer clf curve only depends on the score ordering. -/
theorem clfPoints_map (labels : List Bool) (scores : List ℚ) (f : ℚ → ℚ)
    (hf : StrictMono f) :
    clfPoints labels (scores.map f) = clfPoints labels scores := by
  unfold clfPoints
  rw [distinctDesc_map f hf, List.map_map]
  refine List.map_congr_left (fun t _ => ?_)
  show (fpsAt labels (scores.map f) (f t), tpsAt labels (scores.map f) (f t))
    = _
  rw [fpsAt_map labels scores f hf t, tpsAt_map labels scores f hf t]

/-- `calculate_eer` is invariant under any strictly increasing transform
of the scores (the whole pipeline depends only on the score ordering). -/
theorem calculate_eer_map (labels : List Bool) (scores : List ℚ)
    (f : ℚ → ℚ) (hf : StrictMono f) :
    calculate_eer labels (scores.map f) = calculate_eer labels scores := by
  have hval : eerValue labels (scores.map f) = eerValue labels scores := by
    simp only [eerValue, rocCurvePoints]
    rw [clfPoints_map labels scores f hf]
  unfold calculate_eer
  rw [List.length_map, hval]

/-- C8: for matched inputs containing both classes and any strictly
increasing transform `f` of the scores, the EER is unchanged. -/
theorem eer_strictMono_invariant (labels : List Bool) (scores : List ℚ)
    (f : ℚ → ℚ) (hf : StrictMono f)
    (hlen : labels.length = scores.length)
    (hpos : true ∈ labels) (hneg : false ∈ labels) :
    calculate_eer labels (scores.map f) = calculate_eer labels scores :=
  calculate_eer_map labels scores f hf

/-- Witness for C8: doubling the scores leaves the EER unchanged. -/
theorem eer_strictMono_invariant_witness :
    calculate_eer [true, false] ([(1 : ℚ)/4, 3/4].map (fun x => 2 * x)) =
      calculate_eer [true, false] [(1 : ℚ)/4, 3/4] :=
  eer_strictMono_invariant [true, false] [(1 : ℚ)/4, 3/4] (fun x => 2 * x)
    (fun a b hab => by simpa using (mul_lt_mul_left (by norm_num : (0:ℚ) < 2)).mpr hab)
    rfl (by simp) (by simp)
end AVDNet
